import Mathlib

/-!
Verification of the ComfyType scaffolding CLI (`src/index.ts`).

The development shallowly embeds the data model and the pure decision /
merge logic of the tool:

* JSON-like manifest values (`JsonValue`) and the draft `package.json`
  document (`Manifest`);
* the module-preference normalization (`normalizeModulePreference`);
* the module-scheme detector (`determineModuleScheme`);
* the additive manifest mergers (`ensureScripts`, `ensureDevDependencies`)
  and the type-field synchronizer (`syncPackageType`);
* the configuration emitters (`buildTsconfig`, `eslintConfigContent`,
  `editorConfigContent`);
* the idempotent file-level steps over a small file-system model
  (`ensureGitignoreFS`, `ensureSourceLayout`, `writeEditorConfig`);
* the orchestrating entry point (`configureProject`, `topLevel`).

Stateful filesystem code is embedded as explicit state passing over a
`FileSystem` / `World` record; fallible code returns `Except`.
-/

/-- A JSON value as produced by `JSON.parse`: strings, objects (ordered
key/value lists, mirroring JS object insertion order), arrays, numbers,
booleans and null.  Numbers are never inspected by the tool, so an
integer carrier suffices. -/
inductive JsonValue : Type where
  | str : String → JsonValue
  | obj : List (String × JsonValue) → JsonValue
  | arr : List JsonValue → JsonValue
  | num : Int → JsonValue
  | bool : Bool → JsonValue
  | null : JsonValue

/-- The `--module` preference (`type ModulePreference` in the source). -/
inductive ModulePreference : Type where
  | auto : ModulePreference
  | module : ModulePreference
  | commonjs : ModulePreference
deriving DecidableEq, Repr

/-- The resolved module scheme (`type ModuleScheme` in the source). -/
inductive ModuleScheme : Type where
  | module : ModuleScheme
  | commonjs : ModuleScheme
deriving DecidableEq, Repr

/-- The draft `package.json` document (`DraftPackageJson` in the source).
`type`, `module`, `main` and `exports` are arbitrary JSON values when
present; `scripts` and `devDependencies` are string-to-string records
(ordered association lists, as JS objects are).  `extraFields` stands for
all fields the tool does not understand; no operation touches it. -/
structure Manifest : Type where
  type : Option JsonValue := none
  module : Option JsonValue := none
  main : Option JsonValue := none
  exports : Option JsonValue := none
  scripts : Option (List (String × String)) := none
  devDependencies : Option (List (String × String)) := none
  extraFields : List (String × JsonValue) := []

/- ---------------------------------------------------------------------
String helpers mirroring the JavaScript string primitives used by the
source (`trim`, `toLowerCase`, `endsWith`).
--------------------------------------------------------------------- -/

/-- The whitespace characters relevant to JS `String.prototype.trim`
(ASCII part: space, tab, CR, LF, vertical tab, form feed). -/
def isWSChar (c : Char) : Bool :=
  c = ' ' || c = '\t' || c = '\r' || c = '\n' || c = '\x0b' || c = '\x0c'

/-- Strip leading and trailing whitespace from a character list. -/
def trimChars (l : List Char) : List Char :=
  ((l.dropWhile isWSChar).reverse.dropWhile isWSChar).reverse

/-- JS `value.trim()`. -/
def jsTrim (s : String) : String :=
  String.mk (trimChars s.data)

/-- JS `value.toLowerCase()` (ASCII case folding, which covers every
string the tool compares). -/
def jsToLower (s : String) : String :=
  String.mk (s.data.map Char.toLower)

/-- JS `value.endsWith(p)`. -/
def strEndsWith (s p : String) : Bool :=
  p.data.isSuffixOf s.data

/-- JS `value.endsWith(c)` for a single character. -/
def endsWithChar (s : String) (c : Char) : Bool :=
  s.data.getLast? == some c

/- ---------------------------------------------------------------------
`normalizeModulePreference` (src/index.ts lines 61-70).
--------------------------------------------------------------------- -/

/-- `normalizeModulePreference(value)`: non-strings and blank strings fall
back to `auto`; otherwise the trimmed, lower-cased value must be one of
the three preferences, and anything else throws. -/
def normalizeModulePreference (value : JsonValue) : Except String ModulePreference :=
  match value with
  | JsonValue.str s =>
    if (jsTrim s).length = 0 then Except.ok ModulePreference.auto
    else
      let normalized := jsToLower (jsTrim s)
      if normalized = "auto" then Except.ok ModulePreference.auto
      else if normalized = "module" then Except.ok ModulePreference.module
      else if normalized = "commonjs" then Except.ok ModulePreference.commonjs
      else Except.error ("Unknown module preference \"" ++ s ++ "\". Expected one of: auto, module, commonjs.")
  | _ => Except.ok ModulePreference.auto

/- ---------------------------------------------------------------------
`determineModuleScheme` (src/index.ts lines 86-138).
--------------------------------------------------------------------- -/

/-- `packageJson.f === "lit"` for an optional JSON field: true exactly
when the field holds that string. -/
def isStr (field : Option JsonValue) (lit : String) : Bool :=
  match field with
  | some (JsonValue.str t) => t == lit
  | _ => false

/-- The per-candidate test of the detection loop: a string candidate
signals `module` when it ends in `.mjs`; a truthy object candidate
signals `module` when it exposes an `import` key (on a JS array the
`"import" in x` test is false). -/
def candidateSignalsModule : JsonValue → Bool
  | JsonValue.str s => strEndsWith s ".mjs"
  | JsonValue.obj entries => entries.any (fun e => e.1 == "import")
  | _ => false

/-- `determineModuleScheme(preference, packageJson, created)`: explicit
preference first, then the fresh-manifest default, then the declared
`type`, then inference from `module`/`main`/`exports` candidates, and
finally the CommonJS fallback. -/
def determineModuleScheme (preference : ModulePreference) (packageJson : Manifest)
    (created : Bool) : ModuleScheme :=
  if preference = ModulePreference.module then ModuleScheme.module
  else if preference = ModulePreference.commonjs then ModuleScheme.commonjs
  else if created then ModuleScheme.module
  else if isStr packageJson.type "module" then ModuleScheme.module
  else if isStr packageJson.type "commonjs" then ModuleScheme.commonjs
  else
    let moduleCandidates : List JsonValue :=
      match packageJson.module with
      | some (JsonValue.str s) => [JsonValue.str s]
      | _ => []
    let mainCandidates : List JsonValue :=
      match packageJson.main with
      | some (JsonValue.str s) => [JsonValue.str s]
      | _ => []
    let exportCandidates : List JsonValue :=
      match packageJson.exports with
      | some (JsonValue.str s) => [JsonValue.str s]
      | some (JsonValue.obj entries) => entries.map Prod.snd
      | some (JsonValue.arr items) => items
      | _ => []
    if (moduleCandidates ++ mainCandidates ++ exportCandidates).any candidateSignalsModule
    then ModuleScheme.module
    else ModuleScheme.commonjs

/- ---------------------------------------------------------------------
String-keyed records (JS objects restricted to string values), as used
for `scripts` and `devDependencies`.
--------------------------------------------------------------------- -/

/-- JS property read `m[k]` on a string record: the value at the first
matching key, if any. -/
def lookupStr : List (String × String) → String → Option String
  | [], _ => none
  | e :: rest, k => if e.1 = k then some e.2 else lookupStr rest k

/-- JS property write `m[k] = v` on a string record: replace the value at
an existing key in place, otherwise append the new binding (JS object
insertion order). -/
def setKey : List (String × String) → String → String → List (String × String)
  | [], k, v => [(k, v)]
  | e :: rest, k, v =>
    if e.1 = k then (k, v) :: rest else e :: setKey rest k v

/-- JS truthiness of `m[k]` for a string record: the key is present and
its value is not the empty string. -/
def truthyAt (m : List (String × String)) (k : String) : Bool :=
  ((lookupStr m k).getD "") != ""

/- ---------------------------------------------------------------------
`ensureScripts` (src/index.ts lines 140-159) and
`ensureDevDependencies` (lines 161-186).
--------------------------------------------------------------------- -/

/-- The default scripts, in the order the source fills them. -/
def scriptDefaults : List (String × String) :=
  [("build", "tsc"),
   ("clean", "rimraf ./build/"),
   ("lint", "eslint ."),
   ("start", "npm run build && node build/index.js"),
   ("test", "jest")]

/-- One conditional fill step: `if (!scripts[k]) scripts[k] = v`. -/
def applyScriptDefault (m : List (String × String)) (entry : String × String) :
    List (String × String) :=
  if truthyAt m entry.1 then m else setKey m entry.1 entry.2

/-- `ensureScripts(packageJson)`: create the `scripts` record if absent,
then fill each default script only where the current entry is falsy. -/
def ensureScripts (packageJson : Manifest) : Manifest :=
  { packageJson with
    scripts := some (scriptDefaults.foldl applyScriptDefault (packageJson.scripts.getD [])) }

/-- The known dev-dependency names, in source order. -/
def dependencyNames : List String :=
  ["@types/jest",
   "@types/node",
   "@typescript-eslint/eslint-plugin",
   "@typescript-eslint/parser",
   "eslint",
   "eslint-config-comfycase",
   "jest",
   "rimraf",
   "typescript"]

/-- One dev-dependency fill step: skip a truthy existing pin, otherwise
copy the version pinned in the tool's own manifest when one exists. -/
def applyDevDependency (sourceDeps : List (String × String))
    (m : List (String × String)) (dependency : String) : List (String × String) :=
  if truthyAt m dependency then m
  else
    match lookupStr sourceDeps dependency with
    | some version => setKey m dependency version
    | none => m

/-- `ensureDevDependencies(packageJson)`: create the `devDependencies`
record if absent, then fill each known dependency from the tool's own
pins, passed here explicitly as `sourceDeps`, following the design note
of the spec) only where the current entry is falsy. -/
def ensureDevDependencies (sourceDeps : List (String × String)) (packageJson : Manifest) :
    Manifest :=
  { packageJson with
    devDependencies :=
      some (dependencyNames.foldl (applyDevDependency sourceDeps)
        (packageJson.devDependencies.getD [])) }

/- ---------------------------------------------------------------------
`syncPackageType` (src/index.ts lines 188-206).
--------------------------------------------------------------------- -/

/-- `syncPackageType(packageJson, scheme, preference, created)`: only act
when the preference is explicit or the manifest was just created; then
set `type` to `"module"` for the module scheme, and for the commonjs
scheme delete a declared `type: "module"` (never writing `"commonjs"`). -/
def syncPackageType (packageJson : Manifest) (scheme : ModuleScheme)
    (preference : ModulePreference) (created : Bool) : Manifest :=
  let shouldSync := preference ≠ ModulePreference.auto || created
  if !shouldSync then packageJson
  else if scheme = ModuleScheme.module then
    if !(isStr packageJson.type "module") then
      { packageJson with type := some (JsonValue.str "module") }
    else packageJson
  else
    if isStr packageJson.type "module" then
      { packageJson with type := none }
    else packageJson

/- ---------------------------------------------------------------------
`buildTsconfig` (src/index.ts lines 212-245).
--------------------------------------------------------------------- -/

/-- The `compilerOptions` block of the generated `tsconfig.json`. -/
structure CompilerOptions : Type where
  outDir : String
  rootDir : String
  sourceMap : Bool
  declaration : Bool
  declarationMap : Bool
  strict : Bool
  target : String
  lib : List String
  module : String
  moduleResolution : String
  moduleDetection : String
  allowSyntheticDefaultImports : Bool
  resolveJsonModule : Bool
  esModuleInterop : Bool
  isolatedModules : Bool
  skipLibCheck : Bool
  noEmitOnError : Bool
  types : List String
deriving DecidableEq, Repr

/-- The generated `tsconfig.json` document. -/
structure Tsconfig : Type where
  compilerOptions : CompilerOptions
  includeGlobs : List String
  excludeGlobs : List String
deriving DecidableEq, Repr

/-- `buildTsconfig(scheme)`: only `module` and `moduleResolution` depend
on the scheme; every other field is a constant. -/
def buildTsconfig (scheme : ModuleScheme) : Tsconfig :=
  let moduleSetting := if scheme = ModuleScheme.module then "NodeNext" else "CommonJS"
  let moduleResolution := if scheme = ModuleScheme.module then "NodeNext" else "Node"
  { compilerOptions :=
      { outDir := "./build"
        rootDir := "./src"
        sourceMap := true
        declaration := true
        declarationMap := true
        strict := true
        target := "ES2022"
        lib := ["ES2022", "DOM"]
        module := moduleSetting
        moduleResolution := moduleResolution
        moduleDetection := "force"
        allowSyntheticDefaultImports := true
        resolveJsonModule := true
        esModuleInterop := true
        isolatedModules := true
        skipLibCheck := true
        noEmitOnError := true
        types := ["node"] }
    includeGlobs := ["./src/**/*"]
    excludeGlobs := ["node_modules", "build"] }

/- ---------------------------------------------------------------------
The emitted literal file contents (src/index.ts lines 253-331).
--------------------------------------------------------------------- -/

/-- The scheme-dependent `globals` block of the eslint config template
(src/index.ts lines 255-257). -/
def eslintGlobalsBlock (scheme : ModuleScheme) : String :=
  if scheme = ModuleScheme.commonjs then
    "\t\t\t...globals.browser,\n\t\t\t...globals.node,\n\t\t\t...globals.es2021,\n\t\t\t...globals.commonjs,\n"
  else
    "\t\t\t...globals.browser,\n\t\t\t...globals.node,\n\t\t\t...globals.es2021,\n"

/-- The `eslint.config.js` template (src/index.ts lines 259-300), with
the globals block spliced in. -/
def eslintConfigContent (scheme : ModuleScheme) : String :=
  "import js from \"@eslint/js\";\n" ++
  "import globals from \"globals\";\n" ++
  "import tsParser from \"@typescript-eslint/parser\";\n" ++
  "import typescriptPlugin from \"@typescript-eslint/eslint-plugin\";\n" ++
  "import path from \"node:path\";\n" ++
  "import \x7b fileURLToPath \x7d from \"node:url\";\n" ++
  "import \x7b FlatCompat \x7d from \"@eslint/eslintrc\";\n" ++
  "\n" ++
  "const __filename = fileURLToPath( import.meta.url );\n" ++
  "const __dirname = path.dirname( __filename );\n" ++
  "const compat = new FlatCompat( \x7b\n" ++
  "\tbaseDirectory: __dirname,\n" ++
  "\trecommendedConfig: js.configs.recommended,\n" ++
  "\tallConfig: js.configs.all,\n" ++
  "\x7d );\n" ++
  "\n" ++
  "export default [\n" ++
  "\t...compat.extends( \"comfycase\" ),\n" ++
  "\t\x7b\n" ++
  "\t\tignores: [ \"build/**\", \"dist/**\" ],\n" ++
  "\t\x7d,\n" ++
  "\t\x7b\n" ++
  "\t\tfiles: [ \"**/*.\x7bts,tsx,js,jsx,mts,cts,mjs,cjs\x7d\" ],\n" ++
  "\t\tlanguageOptions: \x7b\n" ++
  "\t\t\tparser: tsParser,\n" ++
  "\t\t\tparserOptions: \x7b\n" ++
  "\t\t\t\tecmaVersion: \"latest\",\n" ++
  "\t\t\t\tsourceType: \"module\",\n" ++
  "\t\t\t\x7d,\n" ++
  "\t\t\tglobals: \x7b\n" ++
  eslintGlobalsBlock scheme ++
  "\t\t\t\x7d,\n" ++
  "\t\t\x7d,\n" ++
  "\t\tplugins: \x7b\n" ++
  "\t\t\t\"@typescript-eslint\": typescriptPlugin,\n" ++
  "\t\t\x7d,\n" ++
  "\t\trules: \x7b\n" ++
  "\t\t\t\"no-unused-vars\": \"off\",\n" ++
  "\t\t\t\"@typescript-eslint/no-unused-vars\": [ \"warn\" ],\n" ++
  "\t\t\x7d,\n" ++
  "\t\x7d,\n" ++
  "];\n"

/-- The fixed `.editorconfig` content (src/index.ts lines 307-316). -/
def editorConfigContent : String :=
  "root = true\n\n[*]\nindent_style = tab\nindent_size = 4\ncharset = utf-8\nend_of_line = lf\ninsert_final_newline = true\n"

/-- The one-line starter source file (src/index.ts line 329). -/
def starterSource : String :=
  "console.log( \"Hello Comfy World!\" );\n"

/-- The `.gitignore` content written when none exists
(src/index.ts line 349). -/
def gitignoreDefault : String :=
  "node_modules/\n/build\n"

/- ---------------------------------------------------------------------
A file-system model: an ordered path-to-content record for files plus
the set of directories, with the four operations the tool uses.
--------------------------------------------------------------------- -/

/-- The working directory: file contents keyed by path, and directories. -/
structure FileSystem : Type where
  files : List (String × String) := []
  dirs : List String := []

/-- `readFile(p)`. -/
def readFileFS (fs : FileSystem) (p : String) : Option String :=
  lookupStr fs.files p

/-- `writeFile(p, c)` (whole-file replacement). -/
def writeFileFS (fs : FileSystem) (p c : String) : FileSystem :=
  { fs with files := setKey fs.files p c }

/-- `fileExists(p)` (an `access` check, true for files and directories). -/
def pathExistsFS (fs : FileSystem) (p : String) : Bool :=
  fs.files.any (fun e => e.1 == p) || fs.dirs.contains p

/-- `mkdir(p, \x7b recursive: true \x7d)`. -/
def mkdirFS (fs : FileSystem) (p : String) : FileSystem :=
  { fs with dirs := p :: fs.dirs }

/- ---------------------------------------------------------------------
`ensureSourceLayout` (src/index.ts lines 320-331) and
`writeEditorConfig` (lines 305-318) as file-system steps.
--------------------------------------------------------------------- -/

/-- `ensureSourceLayout()`: create `src` only if absent, then create
`src/index.ts` with the starter line only if absent. -/
def ensureSourceLayout (fs : FileSystem) : FileSystem :=
  let fs1 := if pathExistsFS fs "src" then fs else mkdirFS fs "src"
  if pathExistsFS fs1 "src/index.ts" then fs1
  else writeFileFS fs1 "src/index.ts" starterSource

/-- `writeEditorConfig()`: always write the fixed content. -/
def writeEditorConfig (fs : FileSystem) : FileSystem :=
  writeFileFS fs ".editorconfig" editorConfigContent

/- ---------------------------------------------------------------------
`ensureGitignore` (src/index.ts lines 333-350).

`current.split(/\r?\n/)` is embedded in two steps: normalize every CRLF
pair into a lone LF (the regex consumes an optional CR before each LF,
scanning left to right), then split on LF.
--------------------------------------------------------------------- -/

/-- Turn every `"\r\n"` pair into `"\n"`, scanning left to right. -/
def normCRLF : List Char → List Char
  | [] => []
  | [c] => [c]
  | a :: b :: rest =>
    if a = '\r' ∧ b = '\n' then '\n' :: normCRLF rest
    else a :: normCRLF (b :: rest)

/-- Split a character list at a separator; always at least one piece,
and a trailing separator yields a final empty piece (JS `split`). -/
def splitOnChar (sep : Char) : List Char → List (List Char)
  | [] => [[]]
  | c :: cs =>
    if c = sep then [] :: splitOnChar sep cs
    else
      match splitOnChar sep cs with
      | [] => [[c]]
      | line :: restLines => (c :: line) :: restLines

/-- The lines of a file content under `split(/\r?\n/)`. -/
def lineSplit (s : String) : List (List Char) :=
  splitOnChar '\n' (normCRLF s.data)

/-- The equivalent build-directory patterns
(`new Set(["/build", "build/", "build"])`). -/
def buildPatterns : List String :=
  ["/build", "build/", "build"]

/-- Whether some line of the content, after trimming, is one of the
build-directory patterns. -/
def hasBuildIgnore (content : String) : Bool :=
  (lineSplit content).any (fun line => buildPatterns.contains (String.mk (trimChars line)))

/-- `ensureGitignore()`: write the default pair when the file is absent;
leave a file that already ignores the build directory untouched;
otherwise append one `/build` line, inserting a newline first only when
the file does not already end with one. -/
def ensureGitignoreFS (fs : FileSystem) : FileSystem :=
  match readFileFS fs ".gitignore" with
  | some current =>
    if hasBuildIgnore current then fs
    else
      let sep := if endsWithChar current '\n' then "" else "\n"
      writeFileFS fs ".gitignore" (current ++ sep ++ "/build\n")
  | none => writeFileFS fs ".gitignore" gitignoreDefault

/- ---------------------------------------------------------------------
The orchestrator (src/index.ts lines 352-387): `configureProject` and
the top-level dispatch with its catch-all error handler.

The world holds the parsed `package.json`, the structured
`tsconfig.json`, the emitted `eslint.config.js` text, and the plain-text
files (`.editorconfig`, `.gitignore`, `src/index.ts`).  The external
`npm init -y` collaborator is represented by the manifest it would
create; the tool's own dependency pins are the `sourceDeps` record.
--------------------------------------------------------------------- -/

/-- The state of the working directory as the tool sees it. -/
structure World : Type where
  packageJson : Option Manifest := none
  tsconfigFile : Option Tsconfig := none
  eslintFile : Option String := none
  fs : FileSystem := {}

/-- The result of one run: the final world, the process completion code,
and the reported error, if any. -/
structure RunOutcome : Type where
  world : World
  exitCode : Nat
  errorMessage : Option String

/-- The `init` (and default) branch of `configureProject`: ensure the
manifest exists (running `npm init -y` when absent), detect the scheme,
merge scripts and dev dependencies, sync the type field, then write the
manifest and every generated artifact in source order. -/
def configureProject (preference : ModulePreference) (npmInitManifest : Manifest)
    (sourceDeps : List (String × String)) (w : World) : World :=
  let created := w.packageJson.isNone
  let packageJson := w.packageJson.getD npmInitManifest
  let moduleScheme := determineModuleScheme preference packageJson created
  let pkg1 := ensureScripts packageJson
  let pkg2 := ensureDevDependencies sourceDeps pkg1
  let pkg3 := syncPackageType pkg2 moduleScheme preference created
  let w1 := { w with packageJson := some pkg3 }
  let w2 := { w1 with tsconfigFile := some (buildTsconfig moduleScheme) }
  let w3 := { w2 with eslintFile := some (eslintConfigContent moduleScheme) }
  let w4 := { w3 with fs := writeEditorConfig w3.fs }
  let w5 := { w4 with fs := ensureGitignoreFS w4.fs }
  { w5 with fs := ensureSourceLayout w5.fs }

/-- The top-level dispatch (src/index.ts lines 379-387): read the
command (`cli.input[0] || ""`), normalize the module flag, and either
configure the project (for `""` or `"init"`) or show usage help; a
thrown error is caught, reported, and turns into a non-zero exit code
before any further step runs. -/
def topLevel (input : List String) (moduleFlag : JsonValue) (npmInitManifest : Manifest)
    (sourceDeps : List (String × String)) (w : World) : RunOutcome :=
  let command := input.headD ""
  match normalizeModulePreference moduleFlag with
  | Except.error msg => { world := w, exitCode := 1, errorMessage := some msg }
  | Except.ok preference =>
    if command = "" || command = "init" then
      { world := configureProject preference npmInitManifest sourceDeps w,
        exitCode := 0, errorMessage := none }
    else
      { world := w, exitCode := 0, errorMessage := none }

/- ---------------------------------------------------------------------
Specification-side definitions, for comparison with the detector.
--------------------------------------------------------------------- -/

/-- Follows the spec's words (§4.1 step 6) for one flattened `exports`
value: a string value signals `module` when it ends in the
module-specific extension; a nested mapping value signals `module` when
it exposes an `import` condition key or when one of its string entries
ends in the module-specific extension. -/
def specFlattenedSignal : JsonValue → Bool
  | JsonValue.str s => strEndsWith s ".mjs"
  | JsonValue.obj entries =>
    entries.any (fun e =>
      e.1 == "import" ||
      (match e.2 with
       | JsonValue.str s => strEndsWith s ".mjs"
       | _ => false))
  | _ => false

/-- Follows the spec's words (§4.1 step 6): inspect `manifest.module`,
`manifest.main`, a string-valued `manifest.exports`, and the flattened
values of `manifest.exports` for a module signal. -/
def specAutoSignalsModule (pkg : Manifest) : Bool :=
  (match pkg.module with
   | some (JsonValue.str s) => strEndsWith s ".mjs"
   | _ => false) ||
  (match pkg.main with
   | some (JsonValue.str s) => strEndsWith s ".mjs"
   | _ => false) ||
  (match pkg.exports with
   | some (JsonValue.str s) => strEndsWith s ".mjs"
   | some (JsonValue.obj entries) => (entries.map Prod.snd).any specFlattenedSignal
   | _ => false)

/-- A manifest whose `exports` maps `"."` to a nested mapping holding
only a `require` entry that ends in `.mjs`: the spec's flattening would
call this a module signal, the code does not. -/
def nestedRequireManifest : Manifest :=
  { exports := some (JsonValue.obj
      [(".", JsonValue.obj [("require", JsonValue.str "./index.mjs")])]) }

/- =====================================================================
Lemmas about string records.
===================================================================== -/

theorem lookupStr_setKey_self : ∀ (m : List (String × String)) (k v : String),
    lookupStr (setKey m k v) k = some v
  | [], k, v => by simp [setKey, lookupStr]
  | e :: rest, k, v => by
    by_cases h : e.1 = k
    · simp [setKey, h, lookupStr]
    · simp [setKey, h, lookupStr, lookupStr_setKey_self rest k v]

theorem lookupStr_setKey_ne : ∀ (m : List (String × String)) (k v a : String),
    a ≠ k → lookupStr (setKey m k v) a = lookupStr m a
  | [], k, v, a, h => by
    have hka : ¬(k = a) := fun hh => h hh.symm
    simp [setKey, lookupStr, hka]
  | e :: rest, k, v, a, h => by
    have hka : ¬(k = a) := fun hh => h hh.symm
    by_cases he : e.1 = k
    · have hea : ¬(e.1 = a) := by rw [he]; exact hka
      simp only [setKey, if_pos he, lookupStr]
      rw [if_neg hka, if_neg hea]
    · simp only [setKey, if_neg he, lookupStr]
      by_cases hea : e.1 = a
      · simp [hea]
      · simp [hea, lookupStr_setKey_ne rest k v a h]

theorem setKey_eq_of_lookup : ∀ (m : List (String × String)) (k v : String),
    lookupStr m k = some v → setKey m k v = m
  | [], k, v, h => by simp [lookupStr] at h
  | e :: rest, k, v, h => by
    by_cases he : e.1 = k
    · simp only [lookupStr, if_pos he] at h
      have : e = (k, v) := by
        cases e
        simp only [Option.some.injEq] at h
        simp [← he, h]
      simp [setKey, he, this]
    · simp only [lookupStr, if_neg he] at h
      simp [setKey, he, setKey_eq_of_lookup rest k v h]

theorem truthyAt_eq_of_lookup (m m' : List (String × String)) (k : String)
    (h : lookupStr m k = lookupStr m' k) : truthyAt m k = truthyAt m' k := by
  unfold truthyAt
  rw [h]

theorem any_key_of_lookup : ∀ (m : List (String × String)) (p c : String),
    lookupStr m p = some c → m.any (fun e => e.1 == p) = true
  | [], p, c, h => by simp [lookupStr] at h
  | e :: rest, p, c, h => by
    by_cases he : e.1 = p
    · simp [he]
    · simp only [lookupStr, if_neg he] at h
      simp [any_key_of_lookup rest p c h]

theorem foldl_fix {α β : Type} (f : β → α → β) :
    ∀ (l : List α) (b : β), (∀ a ∈ l, f b a = b) → l.foldl f b = b
  | [], _, _ => rfl
  | a :: l, b, h => by
    rw [List.foldl_cons, h a (List.mem_cons_self a l)]
    exact foldl_fix f l b (fun x hx => h x (List.mem_cons_of_mem a hx))

/- =====================================================================
Characterization of the script-filling fold.
===================================================================== -/

theorem scriptsFold_lookup_notmem :
    ∀ (ds : List (String × String)) (m : List (String × String)) (k : String),
    (∀ e ∈ ds, e.1 ≠ k) →
    lookupStr (ds.foldl applyScriptDefault m) k = lookupStr m k
  | [], m, k, _ => rfl
  | d :: ds, m, k, h => by
    rw [List.foldl_cons]
    have hd : d.1 ≠ k := h d (List.mem_cons_self d ds)
    rw [scriptsFold_lookup_notmem ds (applyScriptDefault m d) k
      (fun e he => h e (List.mem_cons_of_mem d he))]
    unfold applyScriptDefault
    by_cases ht : truthyAt m d.1
    · simp [ht]
    · simp [ht, lookupStr_setKey_ne m d.1 d.2 k (Ne.symm hd)]

theorem lookupStr_cons (e : String × String) (rest : List (String × String)) (k : String) :
    lookupStr (e :: rest) k = if e.1 = k then some e.2 else lookupStr rest k := rfl

theorem scriptsFold_lookup :
    ∀ (ds : List (String × String)) (m : List (String × String)) (k : String),
    (ds.map Prod.fst).Nodup →
    lookupStr (ds.foldl applyScriptDefault m) k =
      if truthyAt m k then lookupStr m k
      else
        match lookupStr ds k with
        | some v => some v
        | none => lookupStr m k
  | [], m, k, _ => by
    simp only [List.foldl_nil, lookupStr]
    split <;> rfl
  | d :: ds, m, k, hnd => by
    rw [List.map_cons, List.nodup_cons] at hnd
    obtain ⟨hdnot, hndtail⟩ := hnd
    rw [List.foldl_cons]
    by_cases hdk : d.1 = k
    · by_cases ht : truthyAt m k
      · have hstep : applyScriptDefault m d = m := by
          unfold applyScriptDefault
          rw [hdk, if_pos ht]
        rw [hstep, scriptsFold_lookup ds m k hndtail]
        simp [ht]
      · have hstep : applyScriptDefault m d = setKey m k d.2 := by
          unfold applyScriptDefault
          rw [hdk, if_neg ht]
        rw [hstep]
        have hnotin : ∀ e ∈ ds, e.1 ≠ k := by
          intro e he hek
          exact hdnot (hdk ▸ hek ▸ List.mem_map_of_mem Prod.fst he)
        rw [scriptsFold_lookup_notmem ds (setKey m k d.2) k hnotin,
          lookupStr_setKey_self m k d.2]
        rw [if_neg ht, lookupStr_cons, if_pos hdk]
    · have hlook : lookupStr (applyScriptDefault m d) k = lookupStr m k := by
        unfold applyScriptDefault
        by_cases ht : truthyAt m d.1
        · rw [if_pos ht]
        · rw [if_neg ht]
          exact lookupStr_setKey_ne m d.1 d.2 k (Ne.symm hdk)
      have htr : truthyAt (applyScriptDefault m d) k = truthyAt m k :=
        truthyAt_eq_of_lookup _ _ _ hlook
      rw [scriptsFold_lookup ds (applyScriptDefault m d) k hndtail, htr, hlook,
        lookupStr_cons, if_neg hdk]

/- =====================================================================
Characterization of the dev-dependency-filling fold.
===================================================================== -/

theorem depsFold_lookup_notmem (sd : List (String × String)) :
    ∀ (ds : List String) (m : List (String × String)) (k : String),
    k ∉ ds →
    lookupStr (ds.foldl (applyDevDependency sd) m) k = lookupStr m k
  | [], m, k, _ => rfl
  | d :: ds, m, k, h => by
    rw [List.foldl_cons]
    have hd : d ≠ k := fun hh => h (hh ▸ List.mem_cons_self d ds)
    rw [depsFold_lookup_notmem sd ds (applyDevDependency sd m d) k
      (fun hh => h (List.mem_cons_of_mem d hh))]
    unfold applyDevDependency
    by_cases ht : truthyAt m d
    · simp [ht]
    · cases hsd : lookupStr sd d with
      | none => simp [ht, hsd]
      | some v => simp [ht, hsd, lookupStr_setKey_ne m d v k (Ne.symm hd)]

theorem depsFold_lookup (sd : List (String × String)) :
    ∀ (ds : List String) (m : List (String × String)) (k : String),
    ds.Nodup →
    lookupStr (ds.foldl (applyDevDependency sd) m) k =
      if truthyAt m k then lookupStr m k
      else if k ∈ ds then
        match lookupStr sd k with
        | some v => some v
        | none => lookupStr m k
      else lookupStr m k
  | [], m, k, _ => by
    simp only [List.foldl_nil, List.not_mem_nil, if_false]
    split <;> rfl
  | d :: ds, m, k, hnd => by
    rw [List.nodup_cons] at hnd
    obtain ⟨hdnot, hndtail⟩ := hnd
    rw [List.foldl_cons]
    by_cases hdk : d = k
    · by_cases ht : truthyAt m k
      · have hstep : applyDevDependency sd m d = m := by
          unfold applyDevDependency
          rw [hdk, if_pos ht]
        rw [hstep, depsFold_lookup sd ds m k hndtail]
        simp [ht]
      · have hmem : k ∈ d :: ds := hdk ▸ List.mem_cons_self d ds
        have hknotin : k ∉ ds := hdk ▸ hdnot
        cases hsd : lookupStr sd k with
        | none =>
          have hstep : applyDevDependency sd m d = m := by
            unfold applyDevDependency
            rw [hdk, if_neg ht, hsd]
          rw [hstep, depsFold_lookup_notmem sd ds m k hknotin]
          rw [if_neg ht, if_pos hmem]
        | some v =>
          have hstep : applyDevDependency sd m d = setKey m k v := by
            unfold applyDevDependency
            rw [hdk, if_neg ht, hsd]
          rw [hstep, depsFold_lookup_notmem sd ds (setKey m k v) k hknotin,
            lookupStr_setKey_self m k v]
          rw [if_neg ht, if_pos hmem]
    · have hlook : lookupStr (applyDevDependency sd m d) k = lookupStr m k := by
        unfold applyDevDependency
        by_cases ht : truthyAt m d
        · rw [if_pos ht]
        · cases hsd : lookupStr sd d with
          | none => rw [if_neg ht]
          | some v =>
            rw [if_neg ht]
            exact lookupStr_setKey_ne m d v k (Ne.symm hdk)
      have htr : truthyAt (applyDevDependency sd m d) k = truthyAt m k :=
        truthyAt_eq_of_lookup _ _ _ hlook
      have hkd : ¬(k = d) := fun hh => hdk hh.symm
      have hifs :
          (if k ∈ d :: ds then
            match lookupStr sd k with
            | some v => some v
            | none => lookupStr m k
          else lookupStr m k) =
          (if k ∈ ds then
            match lookupStr sd k with
            | some v => some v
            | none => lookupStr m k
          else lookupStr m k) := by
        by_cases hk : k ∈ ds
        · rw [if_pos hk, if_pos (List.mem_cons_of_mem d hk)]
        · have hnot : k ∉ d :: ds := by
            rw [List.mem_cons]
            rintro (hh | hh)
            · exact hkd hh
            · exact hk hh
          rw [if_neg hnot, if_neg hk]
      rw [depsFold_lookup sd ds (applyDevDependency sd m d) k hndtail, htr, hlook, hifs]

/- =====================================================================
Idempotence of the two merge folds.
===================================================================== -/

theorem applyScriptDefault_of_truthy (m : List (String × String)) (e : String × String)
    (h : truthyAt m e.1 = true) : applyScriptDefault m e = m := by
  unfold applyScriptDefault
  rw [if_pos h]

theorem applyDevDependency_of_truthy (sd m : List (String × String)) (d : String)
    (h : truthyAt m d = true) : applyDevDependency sd m d = m := by
  unfold applyDevDependency
  rw [if_pos h]

theorem applyDevDependency_of_falsy (sd m : List (String × String)) (d : String)
    (h : ¬truthyAt m d = true) :
    applyDevDependency sd m d =
      match lookupStr sd d with
      | some version => setKey m d version
      | none => m := by
  unfold applyDevDependency
  rw [if_neg h]

theorem scriptDefaults_truthy_after (s0 : List (String × String)) :
    ∀ e ∈ scriptDefaults,
    truthyAt (scriptDefaults.foldl applyScriptDefault s0) e.1 = true := by
  intro e he
  have hchar := scriptsFold_lookup scriptDefaults s0 e.1 (by decide)
  by_cases ht : truthyAt s0 e.1
  · rw [if_pos ht] at hchar
    unfold truthyAt at ht ⊢
    rw [hchar]
    exact ht
  · rw [if_neg ht] at hchar
    fin_cases he <;>
      (unfold truthyAt
       rw [hchar]
       rfl)

theorem scriptsFold_idem (s0 : List (String × String)) :
    scriptDefaults.foldl applyScriptDefault (scriptDefaults.foldl applyScriptDefault s0) =
      scriptDefaults.foldl applyScriptDefault s0 :=
  foldl_fix _ _ _ (fun e he =>
    applyScriptDefault_of_truthy _ e (scriptDefaults_truthy_after s0 e he))

theorem depsFold_step_fixed (sd : List (String × String)) (s0 : List (String × String)) :
    ∀ d ∈ dependencyNames,
    applyDevDependency sd (dependencyNames.foldl (applyDevDependency sd) s0) d =
      dependencyNames.foldl (applyDevDependency sd) s0 := by
  intro d hd
  have hchar := depsFold_lookup sd dependencyNames s0 d (by decide)
  by_cases htM : truthyAt (dependencyNames.foldl (applyDevDependency sd) s0) d
  · exact applyDevDependency_of_truthy sd _ d htM
  · by_cases hts0 : truthyAt s0 d
    · exfalso
      rw [if_pos hts0] at hchar
      have heq : truthyAt (dependencyNames.foldl (applyDevDependency sd) s0) d = truthyAt s0 d :=
        truthyAt_eq_of_lookup _ _ _ hchar
      rw [heq, hts0] at htM
      exact htM rfl
    · rw [if_neg hts0, if_pos hd] at hchar
      rw [applyDevDependency_of_falsy sd _ d htM]
      cases hsd : lookupStr sd d with
      | none => rfl
      | some v =>
        rw [hsd] at hchar
        exact setKey_eq_of_lookup _ d v hchar

theorem depsFold_idem (sd : List (String × String)) (s0 : List (String × String)) :
    dependencyNames.foldl (applyDevDependency sd)
        (dependencyNames.foldl (applyDevDependency sd) s0) =
      dependencyNames.foldl (applyDevDependency sd) s0 :=
  foldl_fix _ _ _ (depsFold_step_fixed sd s0)

/- =====================================================================
Lemmas about CRLF normalization and line splitting.
===================================================================== -/

theorem normCRLF_cons2 (a b : Char) (rest : List Char) :
    normCRLF (a :: b :: rest) =
      if a = '\r' ∧ b = '\n' then '\n' :: normCRLF rest
      else a :: normCRLF (b :: rest) := rfl

theorem splitOnChar_cons (sep c : Char) (cs : List Char) :
    splitOnChar sep (c :: cs) =
      if c = sep then [] :: splitOnChar sep cs
      else
        match splitOnChar sep cs with
        | [] => [[c]]
        | line :: restLines => (c :: line) :: restLines := rfl

theorem normCRLF_append_cons :
    ∀ (xs ys : List Char), normCRLF (xs ++ '\n' :: ys) = normCRLF (xs ++ ['\n']) ++ normCRLF ys
  | [], ys => by
    cases ys with
    | nil => rfl
    | cons y ys =>
      show normCRLF ('\n' :: y :: ys) = normCRLF ['\n'] ++ normCRLF (y :: ys)
      rw [normCRLF_cons2, if_neg (fun h => absurd h.1 (by decide))]
      rfl
  | [c], ys => by
    by_cases hc : c = '\r'
    · subst hc
      show normCRLF ('\r' :: '\n' :: ys) = normCRLF ['\r', '\n'] ++ normCRLF ys
      rw [normCRLF_cons2, if_pos ⟨rfl, rfl⟩]
      rw [show normCRLF ['\r', '\n'] = ['\n'] from rfl]
      rfl
    · show normCRLF (c :: '\n' :: ys) = normCRLF [c, '\n'] ++ normCRLF ys
      rw [normCRLF_cons2, if_neg (fun h => hc h.1)]
      rw [show normCRLF ('\n' :: ys) = normCRLF ['\n'] ++ normCRLF ys from
        normCRLF_append_cons [] ys]
      rw [show normCRLF [c, '\n'] = c :: normCRLF ['\n'] from by
        rw [normCRLF_cons2, if_neg (fun h => hc h.1)]]
      rfl
  | a :: b :: rest, ys => by
    by_cases hab : a = '\r' ∧ b = '\n'
    · show normCRLF (a :: b :: (rest ++ '\n' :: ys)) =
        normCRLF (a :: b :: (rest ++ ['\n'])) ++ normCRLF ys
      rw [normCRLF_cons2, if_pos hab, normCRLF_append_cons rest ys]
      rw [show normCRLF (a :: b :: (rest ++ ['\n'])) = '\n' :: normCRLF (rest ++ ['\n']) from by
        rw [normCRLF_cons2, if_pos hab]]
      rfl
    · show normCRLF (a :: b :: (rest ++ '\n' :: ys)) =
        normCRLF (a :: b :: (rest ++ ['\n'])) ++ normCRLF ys
      rw [normCRLF_cons2, if_neg hab]
      rw [show (b :: (rest ++ '\n' :: ys)) = (b :: rest) ++ '\n' :: ys from rfl]
      rw [normCRLF_append_cons (b :: rest) ys]
      rw [show normCRLF (a :: b :: (rest ++ ['\n'])) =
          a :: normCRLF ((b :: rest) ++ ['\n']) from by
        rw [normCRLF_cons2, if_neg hab]
        rfl]
      rfl

theorem normCRLF_trailing_nl :
    ∀ xs : List Char, ∃ w, normCRLF (xs ++ ['\n']) = w ++ ['\n']
  | [] => ⟨[], rfl⟩
  | [c] => by
    by_cases hc : c = '\r'
    · subst hc
      exact ⟨[], rfl⟩
    · refine ⟨[c], ?_⟩
      show normCRLF [c, '\n'] = [c] ++ ['\n']
      rw [normCRLF_cons2, if_neg (fun h => hc h.1)]
      rfl
  | a :: b :: rest => by
    by_cases hab : a = '\r' ∧ b = '\n'
    · obtain ⟨w, hw⟩ := normCRLF_trailing_nl rest
      refine ⟨'\n' :: w, ?_⟩
      show normCRLF (a :: b :: (rest ++ ['\n'])) = ('\n' :: w) ++ ['\n']
      rw [normCRLF_cons2, if_pos hab, hw]
      rfl
    · obtain ⟨w, hw⟩ := normCRLF_trailing_nl (b :: rest)
      refine ⟨a :: w, ?_⟩
      show normCRLF (a :: b :: (rest ++ ['\n'])) = (a :: w) ++ ['\n']
      rw [normCRLF_cons2, if_neg hab]
      rw [show (b :: (rest ++ ['\n'])) = (b :: rest) ++ ['\n'] from rfl, hw]
      rfl

theorem splitOnChar_ne_nil (sep : Char) : ∀ cs : List Char, splitOnChar sep cs ≠ []
  | [] => by simp [splitOnChar]
  | c :: cs => by
    rw [splitOnChar_cons]
    by_cases h : c = sep
    · simp [h]
    · rw [if_neg h]
      cases hs : splitOnChar sep cs <;> simp

theorem splitOnChar_append (sep : Char) :
    ∀ xs ys : List Char,
    splitOnChar sep (xs ++ sep :: ys) = splitOnChar sep xs ++ splitOnChar sep ys
  | [], ys => by
    show splitOnChar sep (sep :: ys) = splitOnChar sep [] ++ splitOnChar sep ys
    rw [splitOnChar_cons, if_pos rfl]
    rfl
  | c :: xs, ys => by
    by_cases h : c = sep
    · show splitOnChar sep (c :: (xs ++ sep :: ys)) =
        splitOnChar sep (c :: xs) ++ splitOnChar sep ys
      rw [splitOnChar_cons, if_pos h, splitOnChar_append sep xs ys]
      rw [show splitOnChar sep (c :: xs) = [] :: splitOnChar sep xs from by
        rw [splitOnChar_cons, if_pos h]]
      rfl
    · show splitOnChar sep (c :: (xs ++ sep :: ys)) =
        splitOnChar sep (c :: xs) ++ splitOnChar sep ys
      rw [splitOnChar_cons, if_neg h, splitOnChar_append sep xs ys]
      rcases hx : splitOnChar sep xs with _ | ⟨line, restLines⟩
      · exact absurd hx (splitOnChar_ne_nil sep xs)
      · rw [show splitOnChar sep (c :: xs) = (c :: line) :: restLines from by
          rw [splitOnChar_cons, if_neg h, hx]]
        rfl

theorem getLast?_eq_some_decomp {α : Type} :
    ∀ (l : List α) (c : α), l.getLast? = some c → ∃ w, l = w ++ [c]
  | [], _, h => by simp at h
  | [a], c, h => by
    have ha : a = c := by
      rw [show ([a] : List α).getLast? = some a from rfl] at h
      exact Option.some.inj h
    exact ⟨[], by rw [ha]; rfl⟩
  | a :: b :: l, c, h => by
    rw [List.getLast?_cons_cons] at h
    obtain ⟨w, hw⟩ := getLast?_eq_some_decomp (b :: l) c h
    exact ⟨a :: w, by rw [show a :: b :: l = a :: (b :: l) from rfl, hw]; rfl⟩

/- =====================================================================
The appended `/build` line is always found on a re-run.
===================================================================== -/

theorem hasBuildIgnore_data (q : List Char) :
    (splitOnChar '\n' (normCRLF (q ++ '\n' :: ("/build\n").data))).any
      (fun line => buildPatterns.contains (String.mk (trimChars line))) = true := by
  rw [normCRLF_append_cons q (("/build\n").data)]
  rw [show normCRLF (("/build\n").data) = ("/build\n").data from rfl]
  obtain ⟨w, hw⟩ := normCRLF_trailing_nl q
  rw [hw]
  rw [show (w ++ ['\n']) ++ ("/build\n").data = w ++ '\n' :: ("/build\n").data from by simp]
  rw [splitOnChar_append, List.any_append]
  have hbuild : (splitOnChar '\n' (("/build\n").data)).any
      (fun line => buildPatterns.contains (String.mk (trimChars line))) = true := by decide
  rw [hbuild, Bool.or_true]

theorem hasBuildIgnore_appended (c : String) :
    hasBuildIgnore (c ++ (if endsWithChar c '\n' then "" else "\n") ++ "/build\n") = true := by
  unfold hasBuildIgnore lineSplit
  by_cases he : endsWithChar c '\n'
  · rw [if_pos he]
    have hlast : c.data.getLast? = some '\n' := eq_of_beq he
    obtain ⟨w, hw⟩ := getLast?_eq_some_decomp c.data '\n' hlast
    have hdata : (c ++ "" ++ "/build\n").data = w ++ '\n' :: ("/build\n").data := by
      rw [String.data_append, String.data_append, hw]
      simp
    rw [hdata]
    exact hasBuildIgnore_data w
  · rw [if_neg he]
    have hdata : (c ++ "\n" ++ "/build\n").data = c.data ++ '\n' :: ("/build\n").data := by
      rw [String.data_append, String.data_append]
      simp
    rw [hdata]
    exact hasBuildIgnore_data c.data

/- =====================================================================
Assorted helper lemmas for the claim theorems.
===================================================================== -/

theorem isStr_eq : ∀ (field : Option JsonValue) (lit : String),
    isStr field lit = true → field = some (JsonValue.str lit)
  | some (JsonValue.str t), lit, h => by
    have ht : t = lit := eq_of_beq h
    rw [ht]
  | none, _, h => nomatch h
  | some (JsonValue.obj _), _, h => nomatch h
  | some (JsonValue.arr _), _, h => nomatch h
  | some (JsonValue.num _), _, h => nomatch h
  | some (JsonValue.bool _), _, h => nomatch h
  | some JsonValue.null, _, h => nomatch h

theorem lookupStr_of_mem_nodup :
    ∀ (ds : List (String × String)) (e : String × String),
    (ds.map Prod.fst).Nodup → e ∈ ds →
    lookupStr ds e.1 = some e.2
  | [], e, _, hmem => absurd hmem (List.not_mem_nil e)
  | d :: ds, e, hnd, hmem => by
    rw [List.map_cons, List.nodup_cons] at hnd
    obtain ⟨hdnot, hnd'⟩ := hnd
    rcases List.mem_cons.mp hmem with he | he
    · rw [he, lookupStr_cons, if_pos rfl]
    · have hne : d.1 ≠ e.1 := fun hh => hdnot (hh ▸ List.mem_map_of_mem Prod.fst he)
      rw [lookupStr_cons, if_neg hne]
      exact lookupStr_of_mem_nodup ds e hnd' he

theorem ensureScripts_scripts (pkg : Manifest) :
    (ensureScripts pkg).scripts =
      some (scriptDefaults.foldl applyScriptDefault (pkg.scripts.getD [])) := rfl

theorem ensureDevDependencies_devDependencies (sourceDeps : List (String × String))
    (pkg : Manifest) :
    (ensureDevDependencies sourceDeps pkg).devDependencies =
      some (dependencyNames.foldl (applyDevDependency sourceDeps)
        (pkg.devDependencies.getD [])) := rfl

theorem ensureScripts_idem (pkg : Manifest) :
    ensureScripts (ensureScripts pkg) = ensureScripts pkg := by
  cases pkg with
  | mk t m mn e s d x =>
    show Manifest.mk t m mn e
        (some (scriptDefaults.foldl applyScriptDefault
          ((some (scriptDefaults.foldl applyScriptDefault (s.getD []))).getD []))) d x =
      Manifest.mk t m mn e
        (some (scriptDefaults.foldl applyScriptDefault (s.getD []))) d x
    rw [Option.getD_some, scriptsFold_idem]

theorem ensureDevDependencies_idem (sourceDeps : List (String × String)) (pkg : Manifest) :
    ensureDevDependencies sourceDeps (ensureDevDependencies sourceDeps pkg) =
      ensureDevDependencies sourceDeps pkg := by
  cases pkg with
  | mk t m mn e s d x =>
    show Manifest.mk t m mn e s
        (some (dependencyNames.foldl (applyDevDependency sourceDeps)
          ((some (dependencyNames.foldl (applyDevDependency sourceDeps)
            (d.getD []))).getD []))) x =
      Manifest.mk t m mn e s
        (some (dependencyNames.foldl (applyDevDependency sourceDeps) (d.getD []))) x
    rw [Option.getD_some, depsFold_idem]

theorem ensureGitignoreFS_none (fs : FileSystem) (h : readFileFS fs ".gitignore" = none) :
    ensureGitignoreFS fs = writeFileFS fs ".gitignore" gitignoreDefault := by
  unfold ensureGitignoreFS
  rw [h]

theorem ensureGitignoreFS_has (fs : FileSystem) (c : String)
    (h : readFileFS fs ".gitignore" = some c) (hb : hasBuildIgnore c = true) :
    ensureGitignoreFS fs = fs := by
  unfold ensureGitignoreFS
  rw [h]
  exact if_pos hb

theorem ensureGitignoreFS_append (fs : FileSystem) (c : String)
    (h : readFileFS fs ".gitignore" = some c) (hb : hasBuildIgnore c = false) :
    ensureGitignoreFS fs =
      writeFileFS fs ".gitignore"
        (c ++ (if endsWithChar c '\n' then "" else "\n") ++ "/build\n") := by
  unfold ensureGitignoreFS
  rw [h]
  exact if_neg (by rw [hb]; exact Bool.false_ne_true)

theorem ensureSourceLayout_char (fs : FileSystem) :
    ensureSourceLayout fs =
      FileSystem.mk
        (if pathExistsFS fs "src/index.ts" then fs.files
         else setKey fs.files "src/index.ts" starterSource)
        (if pathExistsFS fs "src" then fs.dirs else "src" :: fs.dirs) := by
  have hpe : pathExistsFS (if pathExistsFS fs "src" then fs else mkdirFS fs "src")
      "src/index.ts" = pathExistsFS fs "src/index.ts" := by
    by_cases h : pathExistsFS fs "src"
    · rw [if_pos h]
    · rw [if_neg h]
      unfold pathExistsFS mkdirFS
      simp only []
      rw [List.contains_cons]
      rw [show (("src/index.ts" : String) == "src") = false from by decide]
      simp
  unfold ensureSourceLayout
  simp only []
  rw [hpe]
  by_cases h2 : pathExistsFS fs "src/index.ts"
  · rw [if_pos h2, if_pos h2]
    by_cases h1 : pathExistsFS fs "src"
    · rw [if_pos h1, if_pos h1]
    · rw [if_neg h1, if_neg h1]
      rfl
  · rw [if_neg h2, if_neg h2]
    by_cases h1 : pathExistsFS fs "src"
    · rw [if_pos h1, if_pos h1]
      rfl
    · rw [if_neg h1, if_neg h1]
      rfl

/- =====================================================================
Claim theorems.
===================================================================== -/

/-- C1: for every manifest document and every value of `wasJustCreated`,
`determineModuleScheme` called with preference `module` returns `module`,
and called with preference `commonjs` returns `commonjs`, regardless of
any `type`/`module`/`main`/`exports` signal in the manifest. -/
theorem explicit_preference_overrides_manifest (packageJson : Manifest) (created : Bool) :
    determineModuleScheme ModulePreference.module packageJson created = ModuleScheme.module
    ∧ determineModuleScheme ModulePreference.commonjs packageJson created = ModuleScheme.commonjs :=
  ⟨rfl, rfl⟩

/-- C2: for every manifest document, if the preference is `auto` and
`wasJustCreated` is true, `determineModuleScheme` returns `module`,
whatever the manifest's `type`, `module`, `main` or `exports` fields
contain. -/
theorem fresh_manifest_defaults_to_module (packageJson : Manifest) :
    determineModuleScheme ModulePreference.auto packageJson true = ModuleScheme.module := rfl

/-- C3 counterexample: the claim says a nested export entry whose string
entries end in a module-specific extension is a module signal, but on
`nestedRequireManifest` (exports mapping `"."` to a mapping with only a
`require` entry ending in `.mjs`) the spec-side condition holds while the
code returns `commonjs`. -/
theorem auto_inference_nested_entry_counterexample :
    specAutoSignalsModule nestedRequireManifest = true
    ∧ determineModuleScheme ModulePreference.auto nestedRequireManifest false =
        ModuleScheme.commonjs :=
  ⟨rfl, rfl⟩

/-- C3 amended: with preference `auto`, `wasJustCreated` false, and a
`type` field that is neither `"module"` nor `"commonjs"`, the detector
returns `module` exactly when `manifest.module`, `manifest.main` or a
string-valued `manifest.exports` ends in `.mjs`, or a top-level flattened
value of `manifest.exports` is a string ending in `.mjs` or a mapping
exposing an `import` condition key; string entries nested inside mapping
values are not themselves inspected for extensions. -/
theorem auto_inference_amended (pkg : Manifest)
    (h1 : isStr pkg.type "module" = false)
    (h2 : isStr pkg.type "commonjs" = false) :
    determineModuleScheme ModulePreference.auto pkg false = ModuleScheme.module ↔
      ((match pkg.module with
        | some (JsonValue.str s) => strEndsWith s ".mjs"
        | _ => false)
       || (match pkg.main with
           | some (JsonValue.str s) => strEndsWith s ".mjs"
           | _ => false)
       || (match pkg.exports with
           | some (JsonValue.str s) => strEndsWith s ".mjs"
           | some (JsonValue.obj entries) => (entries.map Prod.snd).any candidateSignalsModule
           | some (JsonValue.arr items) => items.any candidateSignalsModule
           | _ => false)) = true := by
  have hA : (match pkg.module with
      | some (JsonValue.str s) => [JsonValue.str s]
      | _ => ([] : List JsonValue)).any candidateSignalsModule =
      (match pkg.module with
       | some (JsonValue.str s) => strEndsWith s ".mjs"
       | _ => false) := by
    cases hm : pkg.module with
    | none => rfl
    | some j => cases j <;> simp [candidateSignalsModule]
  have hB : (match pkg.main with
      | some (JsonValue.str s) => [JsonValue.str s]
      | _ => ([] : List JsonValue)).any candidateSignalsModule =
      (match pkg.main with
       | some (JsonValue.str s) => strEndsWith s ".mjs"
       | _ => false) := by
    cases hm : pkg.main with
    | none => rfl
    | some j => cases j <;> simp [candidateSignalsModule]
  have hC : (match pkg.exports with
      | some (JsonValue.str s) => [JsonValue.str s]
      | some (JsonValue.obj entries) => entries.map Prod.snd
      | some (JsonValue.arr items) => items
      | _ => ([] : List JsonValue)).any candidateSignalsModule =
      (match pkg.exports with
       | some (JsonValue.str s) => strEndsWith s ".mjs"
       | some (JsonValue.obj entries) => (entries.map Prod.snd).any candidateSignalsModule
       | some (JsonValue.arr items) => items.any candidateSignalsModule
       | _ => false) := by
    cases hm : pkg.exports with
    | none => rfl
    | some j => cases j <;> simp [candidateSignalsModule]
  unfold determineModuleScheme
  rw [if_neg (by decide), if_neg (by decide), if_neg (by decide),
    if_neg (by rw [h1]; exact Bool.false_ne_true),
    if_neg (by rw [h2]; exact Bool.false_ne_true)]
  simp only [List.any_append, hA, hB, hC]
  constructor
  · intro hmod
    by_contra hfalse
    rw [if_neg hfalse] at hmod
    exact ModuleScheme.noConfusion hmod
  · intro hcond
    rw [if_pos hcond]

/-- C3 amended witness: a manifest whose `main` ends in `.mjs` resolves
to the module scheme under preference `auto`. -/
theorem auto_inference_amended_witness :
    determineModuleScheme ModulePreference.auto
      { main := some (JsonValue.str "index.mjs") } false = ModuleScheme.module :=
  (auto_inference_amended { main := some (JsonValue.str "index.mjs") } rfl rfl).mpr (by decide)

/-- C4: `ensureScripts` and `ensureDevDependencies` are additive-only and
idempotent: each creates its record when absent, fills a known key only
when it is absent or falsy, never changes an already-present truthy
entry, and applying either function twice equals applying it once. -/
theorem merge_additive_idempotent (pkg : Manifest) (sourceDeps : List (String × String)) :
    ((ensureScripts pkg).scripts).isSome = true
    ∧ ((ensureDevDependencies sourceDeps pkg).devDependencies).isSome = true
    ∧ (∀ k v, lookupStr (pkg.scripts.getD []) k = some v → v ≠ "" →
        lookupStr ((ensureScripts pkg).scripts.getD []) k = some v)
    ∧ (∀ e ∈ scriptDefaults, truthyAt (pkg.scripts.getD []) e.1 = false →
        lookupStr ((ensureScripts pkg).scripts.getD []) e.1 = some e.2)
    ∧ (∀ k v, lookupStr (pkg.devDependencies.getD []) k = some v → v ≠ "" →
        lookupStr ((ensureDevDependencies sourceDeps pkg).devDependencies.getD []) k = some v)
    ∧ ensureScripts (ensureScripts pkg) = ensureScripts pkg
    ∧ ensureDevDependencies sourceDeps (ensureDevDependencies sourceDeps pkg) =
        ensureDevDependencies sourceDeps pkg := by
  refine ⟨rfl, rfl, ?_, ?_, ?_, ensureScripts_idem pkg, ensureDevDependencies_idem sourceDeps pkg⟩
  · intro k v hv hne
    have ht : truthyAt (pkg.scripts.getD []) k = true := by
      unfold truthyAt
      rw [hv]
      simpa using hne
    rw [ensureScripts_scripts, Option.getD_some,
      scriptsFold_lookup scriptDefaults (pkg.scripts.getD []) k (by decide), if_pos ht]
    exact hv
  · intro e he hfalsy
    rw [ensureScripts_scripts, Option.getD_some,
      scriptsFold_lookup scriptDefaults (pkg.scripts.getD []) e.1 (by decide),
      if_neg (by rw [hfalsy]; exact Bool.false_ne_true),
      lookupStr_of_mem_nodup scriptDefaults e (by decide) he]
  · intro k v hv hne
    have ht : truthyAt (pkg.devDependencies.getD []) k = true := by
      unfold truthyAt
      rw [hv]
      simpa using hne
    rw [ensureDevDependencies_devDependencies, Option.getD_some,
      depsFold_lookup sourceDeps dependencyNames (pkg.devDependencies.getD []) k (by decide),
      if_pos ht]
    exact hv

/-- C4 witness: on a manifest with a custom `build` script, `ensureScripts`
keeps the custom entry. -/
theorem merge_additive_idempotent_witness :
    lookupStr (((ensureScripts { scripts := some [("build", "custom")] }).scripts).getD [])
      "build" = some "custom" :=
  (merge_additive_idempotent { scripts := some [("build", "custom")] } []).2.2.1
    "build" "custom" rfl (by decide)

/-- C5: `syncPackageType` leaves the manifest unchanged when the
preference is `auto` and `wasJustCreated` is false; otherwise for the
`module` scheme it forces `type` to `"module"`, and for the `commonjs`
scheme it removes `type` exactly when it is present and equal to
`"module"`, never writing an explicit `"commonjs"` value. -/
theorem syncPackageType_spec (pkg : Manifest) (scheme : ModuleScheme)
    (preference : ModulePreference) (created : Bool) :
    syncPackageType pkg scheme preference created =
      if preference = ModulePreference.auto ∧ created = false then pkg
      else if scheme = ModuleScheme.module then
        { pkg with type := some (JsonValue.str "module") }
      else if isStr pkg.type "module" then { pkg with type := none }
      else pkg := by
  have hmodule : isStr pkg.type "module" = true →
      pkg = { pkg with type := some (JsonValue.str "module") } := by
    intro h
    have := isStr_eq pkg.type "module" h
    cases pkg
    simp only at this
    simp [this]
  unfold syncPackageType
  cases preference <;> cases created <;> cases scheme <;>
    simp only [] <;>
    (first
      | rfl
      | (by_cases h : isStr pkg.type "module" = true
         · simp [h, ← hmodule h]
         · simp [h]))

/-- C7: in `buildTsconfig`, the module and module-resolution settings are
the only scheme-dependent outputs (`NodeNext`/`NodeNext` for `module`,
`CommonJS`/`Node` for `commonjs`); every other field of the produced
configuration is the same constant for both schemes. -/
theorem tsconfig_scheme_dependence :
    (buildTsconfig ModuleScheme.module).compilerOptions.module = "NodeNext"
    ∧ (buildTsconfig ModuleScheme.module).compilerOptions.moduleResolution = "NodeNext"
    ∧ (buildTsconfig ModuleScheme.commonjs).compilerOptions.module = "CommonJS"
    ∧ (buildTsconfig ModuleScheme.commonjs).compilerOptions.moduleResolution = "Node"
    ∧ ∀ scheme : ModuleScheme,
        (buildTsconfig scheme).compilerOptions.outDir = "./build"
        ∧ (buildTsconfig scheme).compilerOptions.rootDir = "./src"
        ∧ (buildTsconfig scheme).compilerOptions.sourceMap = true
        ∧ (buildTsconfig scheme).compilerOptions.declaration = true
        ∧ (buildTsconfig scheme).compilerOptions.declarationMap = true
        ∧ (buildTsconfig scheme).compilerOptions.strict = true
        ∧ (buildTsconfig scheme).compilerOptions.target = "ES2022"
        ∧ (buildTsconfig scheme).compilerOptions.lib = ["ES2022", "DOM"]
        ∧ (buildTsconfig scheme).compilerOptions.moduleDetection = "force"
        ∧ (buildTsconfig scheme).compilerOptions.allowSyntheticDefaultImports = true
        ∧ (buildTsconfig scheme).compilerOptions.resolveJsonModule = true
        ∧ (buildTsconfig scheme).compilerOptions.esModuleInterop = true
        ∧ (buildTsconfig scheme).compilerOptions.isolatedModules = true
        ∧ (buildTsconfig scheme).compilerOptions.skipLibCheck = true
        ∧ (buildTsconfig scheme).compilerOptions.noEmitOnError = true
        ∧ (buildTsconfig scheme).compilerOptions.types = ["node"]
        ∧ (buildTsconfig scheme).includeGlobs = ["./src/**/*"]
        ∧ (buildTsconfig scheme).excludeGlobs = ["node_modules", "build"] := by
  refine ⟨rfl, rfl, rfl, rfl, ?_⟩
  intro scheme
  cases scheme <;>
    exact ⟨rfl, rfl, rfl, rfl, rfl, rfl, rfl, rfl, rfl, rfl, rfl, rfl, rfl, rfl, rfl, rfl,
      rfl, rfl⟩

/-- C6: `ensureGitignore` is idempotent and merge-only: when the ignore
file is absent it writes the default pair of entries; when present and
some trimmed line already matches a build pattern, the content is left
byte-for-byte unchanged (no write happens at all); when none match,
exactly the canonical `/build` line is appended after a separating
newline only if the file did not already end in one; and running the
step twice equals running it once. -/
theorem ensureGitignore_spec (fs : FileSystem) :
    (readFileFS fs ".gitignore" = none →
      readFileFS (ensureGitignoreFS fs) ".gitignore" = some gitignoreDefault)
    ∧ (∀ c, readFileFS fs ".gitignore" = some c → hasBuildIgnore c = true →
      ensureGitignoreFS fs = fs)
    ∧ (∀ c, readFileFS fs ".gitignore" = some c → hasBuildIgnore c = false →
      readFileFS (ensureGitignoreFS fs) ".gitignore" =
        some (c ++ (if endsWithChar c '\n' then "" else "\n") ++ "/build\n"))
    ∧ ensureGitignoreFS (ensureGitignoreFS fs) = ensureGitignoreFS fs := by
  refine ⟨?_, ?_, ?_, ?_⟩
  · intro h
    rw [ensureGitignoreFS_none fs h]
    exact lookupStr_setKey_self fs.files ".gitignore" gitignoreDefault
  · intro c hc hb
    exact ensureGitignoreFS_has fs c hc hb
  · intro c hc hb
    rw [ensureGitignoreFS_append fs c hc hb]
    exact lookupStr_setKey_self fs.files ".gitignore" _
  · cases hread : readFileFS fs ".gitignore" with
    | none =>
      rw [ensureGitignoreFS_none fs hread]
      exact ensureGitignoreFS_has _ gitignoreDefault
        (lookupStr_setKey_self fs.files ".gitignore" gitignoreDefault) (by decide)
    | some c =>
      by_cases hb : hasBuildIgnore c = true
      · rw [ensureGitignoreFS_has fs c hread hb]
        exact ensureGitignoreFS_has fs c hread hb
      · have hb' : hasBuildIgnore c = false := Bool.eq_false_iff.mpr hb
        rw [ensureGitignoreFS_append fs c hread hb']
        exact ensureGitignoreFS_has _ _
          (lookupStr_setKey_self fs.files ".gitignore" _)
          (hasBuildIgnore_appended c)

/-- C6 witness: on an empty directory the ignore step writes the default
pair of entries. -/
theorem ensureGitignore_spec_witness :
    readFileFS (ensureGitignoreFS {}) ".gitignore" = some gitignoreDefault :=
  (ensureGitignore_spec {}).1 rfl

/-- C8: re-running the scaffold steps is stable: the editor-config
emitter always writes the same fixed content (so a re-run is
byte-identical and writing twice equals writing once), and
`ensureSourceLayout` never alters an existing file, creates the source
directory only when absent, and creates the starter entry file with its
fixed one-line content only when absent. -/
theorem scaffold_rerun_stable (fs : FileSystem) :
    readFileFS (writeEditorConfig fs) ".editorconfig" = some editorConfigContent
    ∧ writeEditorConfig (writeEditorConfig fs) = writeEditorConfig fs
    ∧ (∀ p c, readFileFS fs p = some c → readFileFS (ensureSourceLayout fs) p = some c)
    ∧ (pathExistsFS fs "src" = true → (ensureSourceLayout fs).dirs = fs.dirs)
    ∧ (pathExistsFS fs "src/index.ts" = false →
        readFileFS (ensureSourceLayout fs) "src/index.ts" = some starterSource) := by
  refine ⟨?_, ?_, ?_, ?_, ?_⟩
  · exact lookupStr_setKey_self fs.files ".editorconfig" editorConfigContent
  · show FileSystem.mk
        (setKey (setKey fs.files ".editorconfig" editorConfigContent)
          ".editorconfig" editorConfigContent) fs.dirs =
      FileSystem.mk (setKey fs.files ".editorconfig" editorConfigContent) fs.dirs
    rw [setKey_eq_of_lookup _ ".editorconfig" editorConfigContent
      (lookupStr_setKey_self fs.files ".editorconfig" editorConfigContent)]
  · intro p c hp
    rw [ensureSourceLayout_char]
    show lookupStr
      (if pathExistsFS fs "src/index.ts" then fs.files
       else setKey fs.files "src/index.ts" starterSource) p = some c
    by_cases h2 : pathExistsFS fs "src/index.ts"
    · rw [if_pos h2]
      exact hp
    · rw [if_neg h2]
      have hne : p ≠ "src/index.ts" := by
        intro hpe
        rw [hpe] at hp
        have hany := any_key_of_lookup fs.files "src/index.ts" c hp
        exact h2 (by unfold pathExistsFS; rw [hany]; rfl)
      rw [lookupStr_setKey_ne fs.files "src/index.ts" starterSource p hne]
      exact hp
  · intro h1
    rw [ensureSourceLayout_char]
    show (if pathExistsFS fs "src" then fs.dirs else "src" :: fs.dirs) = fs.dirs
    rw [if_pos h1]
  · intro h2
    rw [ensureSourceLayout_char]
    show lookupStr
      (if pathExistsFS fs "src/index.ts" then fs.files
       else setKey fs.files "src/index.ts" starterSource) "src/index.ts" = some starterSource
    rw [if_neg (by rw [h2]; exact Bool.false_ne_true)]
    exact lookupStr_setKey_self fs.files "src/index.ts" starterSource

/-- C8 witness: on an empty directory the starter file is created with
its fixed one-line content. -/
theorem scaffold_rerun_stable_witness :
    readFileFS (ensureSourceLayout {}) "src/index.ts" = some starterSource :=
  (scaffold_rerun_stable {}).2.2.2.2 rfl

/-- C9: for every module-preference string that does not normalize to
`auto`, `module` or `commonjs`, the run fails with a descriptive error
naming the bad value, the world is left completely untouched (the
failure happens before any file is created or mutated), and the process
completion code is non-zero. -/
theorem invalid_preference_fails_before_mutation (s : String) (input : List String)
    (npmInitManifest : Manifest) (sourceDeps : List (String × String)) (w : World)
    (hne : (jsTrim s).length ≠ 0)
    (ha : jsToLower (jsTrim s) ≠ "auto")
    (hm : jsToLower (jsTrim s) ≠ "module")
    (hc : jsToLower (jsTrim s) ≠ "commonjs") :
    topLevel input (JsonValue.str s) npmInitManifest sourceDeps w =
      { world := w, exitCode := 1,
        errorMessage := some ("Unknown module preference \"" ++ s ++
          "\". Expected one of: auto, module, commonjs.") } := by
  unfold topLevel normalizeModulePreference
  simp only [hne, ha, hm, hc, if_false, if_neg]

/-- C9 witness: the flag value `esm` aborts the run with exit code 1, an
error naming it, and no change to the world. -/
theorem invalid_preference_fails_before_mutation_witness :
    topLevel ["init"] (JsonValue.str "esm") {} [] {} =
      { world := {}, exitCode := 1,
        errorMessage := some ("Unknown module preference \"" ++ "esm" ++
          "\". Expected one of: auto, module, commonjs.") } :=
  invalid_preference_fails_before_mutation "esm" ["init"] {} [] {}
    (by decide) (by decide) (by decide) (by decide)

/-- C10: `normalizeModulePreference` silently returns `auto` for any
non-string value and for any string whose trimmed form is empty, and it
recognizes the three valid preference values case-insensitively after
trimming, so for example `"  Module "` resolves to `module`. -/
theorem normalize_preference_lenient :
    (∀ j : JsonValue, (∀ t, j ≠ JsonValue.str t) →
      normalizeModulePreference j = Except.ok ModulePreference.auto)
    ∧ (∀ t, (jsTrim t).length = 0 →
      normalizeModulePreference (JsonValue.str t) = Except.ok ModulePreference.auto)
    ∧ (∀ t, jsToLower (jsTrim t) = "auto" →
      normalizeModulePreference (JsonValue.str t) = Except.ok ModulePreference.auto)
    ∧ (∀ t, jsToLower (jsTrim t) = "module" →
      normalizeModulePreference (JsonValue.str t) = Except.ok ModulePreference.module)
    ∧ (∀ t, jsToLower (jsTrim t) = "commonjs" →
      normalizeModulePreference (JsonValue.str t) = Except.ok ModulePreference.commonjs)
    ∧ normalizeModulePreference (JsonValue.str "  Module ") =
        Except.ok ModulePreference.module := by
  have hlen : ∀ t : String, (jsTrim t).length = 0 → jsToLower (jsTrim t) = "" := by
    intro t h
    have hdata : (jsTrim t).data = [] := List.length_eq_zero.mp h
    unfold jsToLower
    rw [hdata]
    rfl
  refine ⟨?_, ?_, ?_, ?_, ?_, ?_⟩
  · intro j hj
    cases j with
    | str t => exact absurd rfl (hj t)
    | obj _ => rfl
    | arr _ => rfl
    | num _ => rfl
    | bool _ => rfl
    | null => rfl
  · intro t h
    unfold normalizeModulePreference
    dsimp only
    rw [if_pos h]
  · intro t h
    unfold normalizeModulePreference
    dsimp only
    by_cases h0 : (jsTrim t).length = 0
    · rw [if_pos h0]
    · rw [if_neg h0]
      simp only [h]
      rfl
  · intro t h
    have h0 : (jsTrim t).length ≠ 0 := by
      intro hz
      rw [hlen t hz] at h
      exact absurd h (by decide)
    unfold normalizeModulePreference
    dsimp only
    rw [if_neg h0]
    simp only [h]
    rfl
  · intro t h
    have h0 : (jsTrim t).length ≠ 0 := by
      intro hz
      rw [hlen t hz] at h
      exact absurd h (by decide)
    unfold normalizeModulePreference
    dsimp only
    rw [if_neg h0]
    simp only [h]
    rfl
  · rfl

/-- C10 witness: a non-string flag value falls back to `auto`. -/
theorem normalize_preference_lenient_witness :
    normalizeModulePreference (JsonValue.num 3) = Except.ok ModulePreference.auto :=
  normalize_preference_lenient.1 (JsonValue.num 3) (fun _ h => JsonValue.noConfusion h)
